import Mathlib

/-!
# ShoeString Wallet Tracker — cost-basis / capital-gains core, verified claims

The repository ships the React frontend (TaxDashboard, TransactionCategorizer)
and e2e tests; the FIFO lot-matching backend itself is not among the given
source files.  The backend engine is therefore modelled from the
specification (spec.md §3, §4.1–§4.4, §7, §8), while the categorizer and the
dashboard rendering logic are translated directly from
`frontend/src/components/TransactionCategorizer.js` and the `TaxDashboard`
component in `frontend/src/components/ChainRequestModal.js`.

Amounts and USD values are modelled as exact rationals (`ℚ`), matching the
spec's fixed-point decimal semantics (§4.2 "Numeric semantics").  Timestamps
are integers counting days, so a holding period is a plain difference.
-/

namespace ShoeString

/-- Modelled from the spec (§3 TransactionCategory): the category enum
`trade, income, gift_received, gift_sent, payment, transfer, staking,
airdrop, fee, lost, other`. -/
inductive Category where
  | trade
  | income
  | gift_received
  | gift_sent
  | payment
  | transfer
  | staking
  | airdrop
  | fee
  | lost
  | other
deriving DecidableEq

/-- Modelled from the spec (§3 Transaction): direction (in/out). -/
inductive Direction where
  | incoming
  | outgoing
deriving DecidableEq

/-- Modelled from the spec (§3 Transaction, input, immutable): timestamp,
asset symbol, amount, direction, optional category.  Timestamps are in days. -/
structure Txn where
  timestamp : ℤ
  asset : String
  amount : ℚ
  direction : Direction
  category : Option Category
deriving DecidableEq

/-- Modelled from the spec (§3 Lot): asset, amount remaining, unit cost basis
in USD at acquisition, acquisition timestamp. -/
structure Lot where
  asset : String
  amount : ℚ
  unitCostUSD : ℚ
  acquiredAt : ℤ
deriving DecidableEq

/-- Modelled from the spec (§4.3 Gain Classifier): holding-period label. -/
inductive Term where
  | shortTerm
  | longTerm
deriving DecidableEq

/-- Modelled from the spec (§4.3): holding period = disposal timestamp −
acquisition timestamp; "long-term" if ≥ 365 days, else "short-term". -/
def classify (acquiredAt disposedAt : ℤ) : Term :=
  if 365 ≤ disposedAt - acquiredAt then Term.longTerm else Term.shortTerm

/-- Modelled from the spec (§3 RealizedGainRecord): asset, amount disposed,
acquisition date, disposal date, cost basis, proceeds, gain/loss,
holding-period classification. -/
structure RealizedGainRecord where
  asset : String
  amount : ℚ
  buyDate : ℤ
  sellDate : ℤ
  costBasis : ℚ
  proceeds : ℚ
  gainLoss : ℚ
  holdingPeriod : Term
deriving DecidableEq

/-- Modelled from the spec (§4.1 Lot Ledger): the queue of lots, head =
oldest acquisition.  Lots of several assets share one list; the queue of an
asset is the sublist of its lots, in acquisition order. -/
def openLot (ledger : List Lot) (l : Lot) : List Lot :=
  ledger ++ [l]

/-- Modelled from the spec (§4.1): `consume(asset, amount)` removes `amount`
total from the head of the asset's queue, across as many lots as needed
(FIFO order, oldest first), returning the (lot, amountConsumedFromThisLot)
pairs used and the mutated ledger.  Fully-consumed lots are removed; a
partially-consumed head keeps its reduced remaining amount.  If the queue
runs out, the returned pairs cover only what was available (the caller
`consumeChecked` reports the shortfall as an error). -/
def consume : List Lot → String → ℚ → List (Lot × ℚ) × List Lot
  | [], _, _ => ([], [])
  | lot :: rest, a, amt =>
    if amt ≤ 0 then ([], lot :: rest)
    else if lot.asset = a then
      if lot.amount ≤ amt then
        let r := consume rest a (amt - lot.amount)
        ((lot, lot.amount) :: r.1, r.2)
      else
        ([(lot, amt)], { lot with amount := lot.amount - amt } :: rest)
    else
      let r := consume rest a amt
      (r.1, lot :: r.2)

/-- Modelled from the spec (§3 Invariant / §8): the remaining ledger balance
of one asset, the sum of the remaining amounts of its lots. -/
def assetBalance : List Lot → String → ℚ
  | [], _ => 0
  | l :: rest, a => (if l.asset = a then l.amount else 0) + assetBalance rest a

/-- Modelled from the spec (§4.1, §7 DataInconsistencyError): the error
raised when a disposal exceeds the known acquisitions of the asset; carries
the uncovered excess. -/
structure InsufficientLotsError where
  asset : String
  shortfall : ℚ
deriving DecidableEq

/-- Result of a checked consume: the matched pairs, the mutated ledger, and
the error, if the requested amount exceeded the total remaining. -/
structure ConsumeOutcome where
  pairs : List (Lot × ℚ)
  ledger : List Lot
  err : Option InsufficientLotsError
deriving DecidableEq

/-- Modelled from the spec (§4.1): consume that fails with
`InsufficientLotsError` when the requested amount exceeds the asset's total
remaining — the shortfall is surfaced, never silently clamped, while the
matched portion is still returned (§8 scenario). -/
def consumeChecked (ledger : List Lot) (a : String) (amt : ℚ) : ConsumeOutcome :=
  let r := consume ledger a amt
  if assetBalance ledger a < amt then
    { pairs := r.1, ledger := r.2, err := some ⟨a, amt - assetBalance ledger a⟩ }
  else
    { pairs := r.1, ledger := r.2, err := none }

/-- Modelled from the spec (§3, §4.2): the policy input deciding which
categories are excluded from taxable acquisition / disposal treatment
(e.g. "transfer", "gift" — configurable, not hardcoded). -/
structure TaxPolicy where
  acquisitionExcluded : Category → Bool
  disposalExcluded : Category → Bool

/-- Modelled from the spec (§3): default category when unset is inferred by
direction — sent/received both default to "trade". -/
def effectiveCategory (c : Option Category) : Category :=
  c.getD Category.trade

/-- Modelled from the spec (§4.2): the RealizedGainRecord emitted for one
(lot, amountConsumed) pair of a disposal: proceeds = amountConsumed ×
price-at-disposal-timestamp, cost basis = amountConsumed × lot.unitCostUSD,
gain = proceeds − cost basis. -/
def mkRecord (price : String → ℤ → ℚ) (tx : Txn) (p : Lot × ℚ) : RealizedGainRecord :=
  { asset := tx.asset
    amount := p.2
    buyDate := p.1.acquiredAt
    sellDate := tx.timestamp
    costBasis := p.2 * p.1.unitCostUSD
    proceeds := p.2 * price tx.asset tx.timestamp
    gainLoss := p.2 * price tx.asset tx.timestamp - p.2 * p.1.unitCostUSD
    holdingPeriod := classify p.1.acquiredAt tx.timestamp }

/-- Modelled from the spec (§4.2, §7): the engine state — the lot ledger,
the realized-gain records emitted so far, and the collected partial-failure
warnings. -/
structure EngineState where
  ledger : List Lot
  records : List RealizedGainRecord
  warnings : List InsufficientLotsError
deriving DecidableEq

/-- Modelled from the spec (§4.2 FIFO Matching Engine), one transaction:
incoming, not excluded ⇒ open a lot at price-at-timestamp; outgoing, not
excluded ⇒ consume lots FIFO and emit one record per pair, collecting an
`InsufficientLotsError` as a warning instead of aborting; zero-value
transactions are skipped for lot purposes. -/
def processTx (price : String → ℤ → ℚ) (pol : TaxPolicy) (st : EngineState)
    (tx : Txn) : EngineState :=
  match tx.direction with
  | Direction.incoming =>
    if pol.acquisitionExcluded (effectiveCategory tx.category) then st
    else if tx.amount ≤ 0 then st
    else { st with
      ledger := openLot st.ledger
        ⟨tx.asset, tx.amount, price tx.asset tx.timestamp, tx.timestamp⟩ }
  | Direction.outgoing =>
    if pol.disposalExcluded (effectiveCategory tx.category) then st
    else if tx.amount ≤ 0 then st
    else
      let res := consumeChecked st.ledger tx.asset tx.amount
      { ledger := res.ledger
        records := st.records ++ res.pairs.map (mkRecord price tx)
        warnings := st.warnings ++ res.err.toList }

/-- Modelled from the spec (§4.2): `processTransactions` iterates the sorted
stream once from an empty ledger. -/
def processTransactions (price : String → ℤ → ℚ) (pol : TaxPolicy)
    (txs : List Txn) : EngineState :=
  txs.foldl (processTx price pol) ⟨[], [], []⟩

/-- Total amount consumed by a list of (lot, amountConsumed) pairs. -/
def pairsSum : List (Lot × ℚ) → ℚ
  | [] => 0
  | p :: ps => p.2 + pairsSum ps

/-- Total amount of the realized-gain records of one asset. -/
def recordsSum : List RealizedGainRecord → String → ℚ
  | [], _ => 0
  | r :: rs, a => (if r.asset = a then r.amount else 0) + recordsSum rs a

/-- Total shortfall reported by the insufficient-lots warnings of one asset. -/
def shortfallSum : List InsufficientLotsError → String → ℚ
  | [], _ => 0
  | w :: ws, a => (if w.asset = a then w.shortfall else 0) + shortfallSum ws a

/-- Modelled from the spec (§3 Invariant): the total amount acquired for an
asset over a stream — the incoming transactions the engine opens lots for
(not excluded by policy, positive amount). -/
def acquiredSum (pol : TaxPolicy) : List Txn → String → ℚ
  | [], _ => 0
  | tx :: txs, a =>
    (if tx.direction = Direction.incoming
        ∧ pol.acquisitionExcluded (effectiveCategory tx.category) = false
        ∧ 0 < tx.amount ∧ tx.asset = a
     then tx.amount else 0) + acquiredSum pol txs a

/-- Modelled from the spec (§3 Invariant): the total amount disposed for an
asset over a stream — the outgoing transactions the engine treats as taxable
disposals (not excluded by policy, positive amount). -/
def disposedSum (pol : TaxPolicy) : List Txn → String → ℚ
  | [], _ => 0
  | tx :: txs, a =>
    (if tx.direction = Direction.outgoing
        ∧ pol.disposalExcluded (effectiveCategory tx.category) = false
        ∧ 0 < tx.amount ∧ tx.asset = a
     then tx.amount else 0) + disposedSum pol txs a

/-- Every (lot, amountConsumed) pair except possibly the last consumes its
lot fully: the earlier lot's remaining amount reaches zero before any amount
is taken from a later lot. -/
def fullyConsumedInit : List (Lot × ℚ) → Prop
  | [] => True
  | [_] => True
  | p :: q :: ps => p.2 = p.1.amount ∧ fullyConsumedInit (q :: ps)

/-- Modelled from the spec (§4.4 Tax Report Generator): the Form 8949 term
filter `all | short-term | long-term`. -/
inductive TermFilter where
  | all
  | onlyShortTerm
  | onlyLongTerm
deriving DecidableEq

/-- Whether a realized-gain record matches a term filter. -/
def matchesFilter (f : TermFilter) (r : RealizedGainRecord) : Bool :=
  match f with
  | TermFilter.all => true
  | TermFilter.onlyShortTerm => r.holdingPeriod == Term.shortTerm
  | TermFilter.onlyLongTerm => r.holdingPeriod == Term.longTerm

/-- Modelled from the spec (§4.4): an IRS Form 8949 row — description, date
acquired, date sold, proceeds, cost basis, gain/loss. -/
structure Form8949Row where
  description : String
  dateAcquired : ℤ
  dateSold : ℤ
  proceeds : ℚ
  costBasis : ℚ
  gainLoss : ℚ
deriving DecidableEq

/-- The Form 8949 row of one realized-gain record. -/
def toForm8949Row (r : RealizedGainRecord) : Form8949Row :=
  { description := r.asset
    dateAcquired := r.buyDate
    dateSold := r.sellDate
    proceeds := r.proceeds
    costBasis := r.costBasis
    gainLoss := r.gainLoss }

/-- Modelled from the spec (§4.4): `exportForm8949(records, termFilter)`
produces one row per RealizedGainRecord matching the filter. -/
def exportForm8949 (records : List RealizedGainRecord) (f : TermFilter) :
    List Form8949Row :=
  (records.filter (matchesFilter f)).map toForm8949Row

/-!
## Transaction categorizer — translated from
`frontend/src/components/TransactionCategorizer.js`
-/

/-- A transaction as seen by the categorizer: `hash` may be absent, `txType`
is the source's `tx.type` string ("sent" / "received" / anything else), and
`category` is absent when the transaction carries no assigned category
(covering JS `undefined`/empty, both falsy in `tx.category || ...`). -/
structure CatTx where
  hash : Option String
  txType : String
  category : Option String
deriving DecidableEq

/-- From `autoDetectCategory` (TransactionCategorizer.js lines 59–67):
`sent` ⇒ "trade", `received` ⇒ "trade", anything else ⇒ "other". -/
def autoDetectCategory (txType : String) : String :=
  if txType = "sent" then "trade"
  else if txType = "received" then "trade"
  else "other"

/-- From the categories init (TransactionCategorizer.js lines 47–57):
`tx.category || autoDetectCategory(tx)`. -/
def assignCategory (tx : CatTx) : String :=
  match tx.category with
  | some c => c
  | none => autoDetectCategory tx.txType

/-- The category map built by the categorizer's forEach over the transaction
list: only transactions with a hash are entered, and a later occurrence of
the same hash overwrites an earlier one (JS object assignment), so lookups
consult the tail of the list first. -/
def categoriesOf : List CatTx → String → Option String
  | [], _ => none
  | tx :: rest, k =>
    match categoriesOf rest k with
    | some c => some c
    | none =>
      match tx.hash with
      | some h => if h = k then some (assignCategory tx) else none
      | none => none

/-- Saving a category map back onto the transactions (`onSaveCategories`
handed to the parent): each transaction with a hash found in the map gets
that category assigned; hashes and all other fields are unchanged. -/
def applyCategories (cats : String → Option String) (txs : List CatTx) :
    List CatTx :=
  txs.map fun tx =>
    match tx.hash with
    | some h =>
      match cats h with
      | some c => { tx with category := some c }
      | none => tx
    | none => tx

/-!
## TaxDashboard rendering — translated from the `TaxDashboard` component in
`frontend/src/components/ChainRequestModal.js`
-/

/-- The tax summary object consumed by the dashboard (summary fields read at
ChainRequestModal.js lines 221–257). -/
structure TaxSummary where
  total_realized_gain : ℚ
  short_term_gains : ℚ
  long_term_gains : ℚ
  total_unrealized_gain : ℚ
  sell_count : ℕ
deriving DecidableEq

/-- The `taxData` prop destructured by the dashboard (line 188); each field
the component may dereference is optional, as in the incoming JSON. -/
structure TaxData where
  summary : Option TaxSummary
  realized_gains : Option (List RealizedGainRecord)
  remaining_lots : Option (List Lot)
  method : String
deriving DecidableEq

/-- The style of a rendered gain/loss amount: green gain or red loss. -/
inductive GainStyle where
  | gain
  | loss
deriving DecidableEq

/-- A rendered gain/loss value: the style and the text shown. -/
structure GainLossView where
  style : GainStyle
  text : String
deriving DecidableEq

/-- From `formatGainLoss` (ChainRequestModal.js lines 190–196):
`value >= 0` renders `+formatUSD(|value|)` in the gain style, otherwise
`-formatUSD(|value|)` in the loss style. -/
def formatGainLoss (formatUSD : ℚ → String) (value : ℚ) : GainLossView :=
  if 0 ≤ value then ⟨GainStyle.gain, "+" ++ formatUSD |value|⟩
  else ⟨GainStyle.loss, "-" ++ formatUSD |value|⟩

/-- What the dashboard shows when it does render: the summary figures and
the detail lists it dereferences (realized gains table is capped at 20 rows,
line 364). -/
structure DashboardView where
  headerRealized : GainLossView
  headerShortTerm : GainLossView
  headerLongTerm : GainLossView
  headerUnrealized : GainLossView
  realizedRows : List RealizedGainRecord
  lotRows : List Lot
deriving DecidableEq

/-- From `TaxDashboard` (ChainRequestModal.js lines 184–196): when `taxData`
or `taxData.summary` is absent the component returns `null` before touching
`realized_gains`, `unrealized_gains` or `remaining_lots`; otherwise it
renders the summary and detail sections. -/
def renderTaxDashboard (formatUSD : ℚ → String) (taxData : Option TaxData) :
    Option DashboardView :=
  match taxData with
  | none => none
  | some td =>
    match td.summary with
    | none => none
    | some s =>
      some
        { headerRealized := formatGainLoss formatUSD s.total_realized_gain
          headerShortTerm := formatGainLoss formatUSD s.short_term_gains
          headerLongTerm := formatGainLoss formatUSD s.long_term_gains
          headerUnrealized := formatGainLoss formatUSD s.total_unrealized_gain
          realizedRows := (td.realized_gains.getD []).take 20
          lotRows := td.remaining_lots.getD [] }

/-!
## Concrete inputs used to evaluate the theorems on closed instances
(from the worked scenarios of spec.md §8)
-/

/-- Price oracle of the §8 scenario: $2,000 on day 1, $3,000 on day 100,
$2,666.67 (= 8000/3) per unit at the day-400 disposal. -/
def priceW : String → ℤ → ℚ :=
  fun _ t => if t = 1 then 2000 else if t = 100 then 3000 else 8000 / 3

/-- A concrete policy: own-wallet transfers are excluded from both taxable
acquisition and taxable disposal treatment. -/
def polW : TaxPolicy where
  acquisitionExcluded c :=
    match c with
    | Category.transfer => true
    | _ => false
  disposalExcluded c :=
    match c with
    | Category.transfer => true
    | _ => false

/-- The §8 scenario stream: acquire 1 ETH (day 1), acquire 1 ETH (day 100),
dispose 1.5 ETH (day 400). -/
def txsW : List Txn :=
  [⟨1, "ETH", 1, Direction.incoming, none⟩,
   ⟨100, "ETH", 1, Direction.incoming, none⟩,
   ⟨400, "ETH", 3 / 2, Direction.outgoing, none⟩]

/-- The §8 insufficiency scenario: acquire 3 ETH, then dispose 5 ETH. -/
def txsBad : List Txn :=
  [⟨1, "ETH", 3, Direction.incoming, none⟩,
   ⟨2, "ETH", 5, Direction.outgoing, none⟩]

/-- A concrete ledger: 2 ETH acquired at $100 (day 0), 1 ETH at $200 (day 10). -/
def ledgerW : List Lot :=
  [⟨"ETH", 2, 100, 0⟩, ⟨"ETH", 1, 200, 10⟩]

/-- Engine state holding `ledgerW`, no records, no warnings. -/
def stW : EngineState := ⟨ledgerW, [], []⟩

/-- A disposal of 5 ETH on day 20 — more than `ledgerW` holds. -/
def txW : Txn := ⟨20, "ETH", 5, Direction.outgoing, none⟩

/-- A disposal of 1.5 ETH on day 400 against `ledgerW`. -/
def txW2 : Txn := ⟨400, "ETH", 3 / 2, Direction.outgoing, none⟩

/-- A concrete USD formatter for closed instances. -/
def fmtW : ℚ → String := fun q => toString q.num

/-- Concrete categorizer transactions: a sent one without category, one with
a manual category, one without hash, and an unknown-direction one. -/
def catTxsW : List CatTx :=
  [⟨some "h1", "sent", none⟩,
   ⟨some "h2", "received", some "income"⟩,
   ⟨none, "sent", none⟩,
   ⟨some "h3", "approval", none⟩]

/-- Tax data whose `summary` field is absent. -/
def tdNoSummary : TaxData := ⟨none, some [], some [], "FIFO"⟩

/-!
## Helper lemmas about the lot queue
-/

theorem assetBalance_nonneg (L : List Lot) (a : String)
    (h : ∀ l ∈ L, 0 ≤ l.amount) : 0 ≤ assetBalance L a := by
  induction L with
  | nil => simp [assetBalance]
  | cons lot rest ih =>
    have h0 : 0 ≤ lot.amount := h lot (by simp)
    have h1 : 0 ≤ assetBalance rest a := ih fun l hl => h l (by simp [hl])
    by_cases ha : lot.asset = a <;> simp [assetBalance, ha] <;> linarith

theorem consume_balance_eq (L : List Lot) (a : String) (amt : ℚ) :
    assetBalance (consume L a amt).2 a
      = assetBalance L a - pairsSum (consume L a amt).1 := by
  induction L generalizing amt with
  | nil => simp [consume, assetBalance, pairsSum]
  | cons lot rest ih =>
    by_cases hamt : amt ≤ 0
    · simp [consume, hamt, pairsSum]
    · by_cases ha : lot.asset = a
      · by_cases hfull : lot.amount ≤ amt
        · simp only [consume, if_neg hamt, if_pos ha, if_pos hfull]
          simp only [assetBalance, pairsSum, if_pos ha, ih]
          ring
        · simp only [consume, if_neg hamt, if_pos ha, if_neg hfull]
          simp only [assetBalance, pairsSum, if_pos ha]
          ring
      · simp only [consume, if_neg hamt, if_neg ha]
        simp only [assetBalance, pairsSum, if_neg ha, ih]
        ring

theorem consume_balance_ne (L : List Lot) (a b : String) (amt : ℚ)
    (hab : b ≠ a) :
    assetBalance (consume L a amt).2 b = assetBalance L b := by
  induction L generalizing amt with
  | nil => simp [consume]
  | cons lot rest ih =>
    by_cases hamt : amt ≤ 0
    · simp [consume, hamt]
    · by_cases ha : lot.asset = a
      · have hb : ¬ lot.asset = b := by
          intro hcontra; exact hab (hcontra ▸ ha)
        by_cases hfull : lot.amount ≤ amt
        · simp only [consume, if_neg hamt, if_pos ha, if_pos hfull]
          simp only [assetBalance, if_neg hb, ih]
          ring
        · simp only [consume, if_neg hamt, if_pos ha, if_neg hfull]
          simp only [assetBalance, if_neg hb]
      · by_cases hb : lot.asset = b
        · simp only [consume, if_neg hamt, if_neg ha]
          simp only [assetBalance, if_pos hb, ih]
        · simp only [consume, if_neg hamt, if_neg ha]
          simp only [assetBalance, if_neg hb, ih]

theorem consume_exact (L : List Lot) (a : String) (amt : ℚ)
    (h0 : 0 ≤ amt) (hle : amt ≤ assetBalance L a)
    (hpos : ∀ l ∈ L, 0 ≤ l.amount) :
    pairsSum (consume L a amt).1 = amt := by
  induction L generalizing amt with
  | nil =>
    simp only [assetBalance] at hle
    have : amt = 0 := le_antisymm hle h0
    simp [consume, pairsSum, this]
  | cons lot rest ih =>
    have hrest : ∀ l ∈ rest, 0 ≤ l.amount := fun l hl => hpos l (by simp [hl])
    by_cases hamt : amt ≤ 0
    · have : amt = 0 := le_antisymm hamt h0
      simp [consume, hamt, pairsSum]
      linarith
    · by_cases ha : lot.asset = a
      · by_cases hfull : lot.amount ≤ amt
        · simp only [consume, if_neg hamt, if_pos ha, if_pos hfull, pairsSum]
          have hle2 : amt - lot.amount ≤ assetBalance rest a := by
            simp only [assetBalance, if_pos ha] at hle
            linarith
          rw [ih (amt - lot.amount) (by linarith) hle2 hrest]
          ring
        · simp [consume, hamt, ha, hfull, pairsSum]
      · simp only [consume, if_neg hamt, if_neg ha]
        have hle2 : amt ≤ assetBalance rest a := by
          simp only [assetBalance, if_neg ha] at hle
          linarith
        exact ih amt h0 hle2 hrest

theorem consume_insufficient (L : List Lot) (a : String) (amt : ℚ)
    (hge : assetBalance L a ≤ amt)
    (hpos : ∀ l ∈ L, 0 ≤ l.amount) :
    pairsSum (consume L a amt).1 = assetBalance L a := by
  induction L generalizing amt with
  | nil => simp [consume, pairsSum, assetBalance]
  | cons lot rest ih =>
    have hrest : ∀ l ∈ rest, 0 ≤ l.amount := fun l hl => hpos l (by simp [hl])
    have hbr : 0 ≤ assetBalance rest a := assetBalance_nonneg rest a hrest
    have hl0 : 0 ≤ lot.amount := hpos lot (by simp)
    by_cases hamt : amt ≤ 0
    · by_cases ha : lot.asset = a
      · simp only [assetBalance, if_pos ha] at hge ⊢
        simp only [consume, if_pos hamt, pairsSum]
        linarith
      · simp only [assetBalance, if_neg ha] at hge ⊢
        simp only [consume, if_pos hamt, pairsSum]
        linarith
    · by_cases ha : lot.asset = a
      · by_cases hfull : lot.amount ≤ amt
        · simp only [consume, if_neg hamt, if_pos ha, if_pos hfull, pairsSum]
          have hge2 : assetBalance rest a ≤ amt - lot.amount := by
            simp only [assetBalance, if_pos ha] at hge
            linarith
          rw [ih (amt - lot.amount) hge2 hrest]
          simp [assetBalance, ha]
        · exfalso
          simp only [assetBalance, if_pos ha] at hge
          linarith
      · simp only [consume, if_neg hamt, if_neg ha]
        simp only [assetBalance, if_neg ha] at hge ⊢
        rw [ih amt (by linarith) hrest]
        ring

theorem consume_nonneg (L : List Lot) (a : String) (amt : ℚ)
    (hpos : ∀ l ∈ L, 0 ≤ l.amount) :
    ∀ l ∈ (consume L a amt).2, 0 ≤ l.amount := by
  induction L generalizing amt with
  | nil => simp [consume]
  | cons lot rest ih =>
    have hrest : ∀ l ∈ rest, 0 ≤ l.amount := fun l hl => hpos l (by simp [hl])
    have hl0 : 0 ≤ lot.amount := hpos lot (by simp)
    by_cases hamt : amt ≤ 0
    · simpa [consume, hamt] using hpos
    · by_cases ha : lot.asset = a
      · by_cases hfull : lot.amount ≤ amt
        · simpa [consume, hamt, ha, hfull] using ih (amt - lot.amount) hrest
        · intro l hl
          simp only [consume, if_neg hamt, if_pos ha, if_neg hfull,
            List.mem_cons] at hl
          rcases hl with h | h
          · rw [h]; simp; linarith [not_le.mp hfull]
          · exact hrest l h
      · intro l hl
        simp only [consume, if_neg hamt, if_neg ha, List.mem_cons] at hl
        rcases hl with h | h
        · rw [h]; exact hl0
        · exact ih amt hrest l h

theorem consume_fst_take (L : List Lot) (a : String) (amt : ℚ) :
    (consume L a amt).1.map Prod.fst
      = (L.filter fun l => l.asset == a).take (consume L a amt).1.length := by
  induction L generalizing amt with
  | nil => simp [consume]
  | cons lot rest ih =>
    by_cases hamt : amt ≤ 0
    · simp [consume, hamt]
    · by_cases ha : lot.asset = a
      · by_cases hfull : lot.amount ≤ amt
        · simp [consume, hamt, ha, hfull, List.filter_cons, ih]
        · simp [consume, hamt, ha, hfull, List.filter_cons]
      · simp [consume, hamt, ha, List.filter_cons, ih]

theorem fullyConsumedInit_consume (L : List Lot) (a : String) (amt : ℚ) :
    fullyConsumedInit (consume L a amt).1 := by
  induction L generalizing amt with
  | nil => simp [consume, fullyConsumedInit]
  | cons lot rest ih =>
    by_cases hamt : amt ≤ 0
    · simp [consume, hamt, fullyConsumedInit]
    · by_cases ha : lot.asset = a
      · by_cases hfull : lot.amount ≤ amt
        · simp only [consume, if_neg hamt, if_pos ha, if_pos hfull]
          have hrec := ih (amt - lot.amount)
          cases hps : (consume rest a (amt - lot.amount)).1 with
          | nil => simp [fullyConsumedInit]
          | cons q qs =>
            rw [hps] at hrec
            exact ⟨rfl, hrec⟩
        · simp [consume, hamt, ha, hfull, fullyConsumedInit]
      · simpa [consume, hamt, ha] using ih amt

theorem consume_pairs_sorted (L : List Lot) (a : String) (amt : ℚ)
    (hsort : (L.filter fun l => l.asset == a).Pairwise
      fun l1 l2 => l1.acquiredAt ≤ l2.acquiredAt) :
    ((consume L a amt).1.map Prod.fst).Pairwise
      fun l1 l2 => l1.acquiredAt ≤ l2.acquiredAt := by
  rw [consume_fst_take]
  exact List.Pairwise.sublist (List.take_sublist _ _) hsort

/-!
## Helper lemmas about the checked consume and the engine step
-/

theorem consumeChecked_pairs (L : List Lot) (a : String) (amt : ℚ) :
    (consumeChecked L a amt).pairs = (consume L a amt).1 := by
  simp only [consumeChecked]
  split <;> rfl

theorem consumeChecked_ledger (L : List Lot) (a : String) (amt : ℚ) :
    (consumeChecked L a amt).ledger = (consume L a amt).2 := by
  simp only [consumeChecked]
  split <;> rfl

theorem consumeChecked_err_some (L : List Lot) (a : String) (amt : ℚ)
    (h : assetBalance L a < amt) :
    (consumeChecked L a amt).err = some ⟨a, amt - assetBalance L a⟩ := by
  simp [consumeChecked, h]

theorem consumeChecked_err_none (L : List Lot) (a : String) (amt : ℚ)
    (h : amt ≤ assetBalance L a) :
    (consumeChecked L a amt).err = none := by
  simp [consumeChecked, not_lt.mpr h]

theorem assetBalance_append (L1 L2 : List Lot) (a : String) :
    assetBalance (L1 ++ L2) a = assetBalance L1 a + assetBalance L2 a := by
  induction L1 with
  | nil => simp [assetBalance]
  | cons l rest ih => simp [assetBalance, ih]; ring

theorem recordsSum_append (r1 r2 : List RealizedGainRecord) (a : String) :
    recordsSum (r1 ++ r2) a = recordsSum r1 a + recordsSum r2 a := by
  induction r1 with
  | nil => simp [recordsSum]
  | cons r rest ih => simp [recordsSum, ih]; ring

theorem shortfallSum_append (w1 w2 : List InsufficientLotsError) (a : String) :
    shortfallSum (w1 ++ w2) a = shortfallSum w1 a + shortfallSum w2 a := by
  induction w1 with
  | nil => simp [shortfallSum]
  | cons w rest ih => simp [shortfallSum, ih]; ring

theorem recordsSum_map_mkRecord (price : String → ℤ → ℚ) (tx : Txn)
    (ps : List (Lot × ℚ)) (a : String) :
    recordsSum (ps.map (mkRecord price tx)) a
      = if tx.asset = a then pairsSum ps else 0 := by
  induction ps with
  | nil => simp [recordsSum, pairsSum]
  | cons p rest ih =>
    by_cases ha : tx.asset = a
    · simp [recordsSum, pairsSum, mkRecord, ha, ih]
    · simp [recordsSum, pairsSum, mkRecord, ha, ih]

theorem processTx_nonneg (price : String → ℤ → ℚ) (pol : TaxPolicy)
    (st : EngineState) (tx : Txn)
    (hpos : ∀ l ∈ st.ledger, 0 ≤ l.amount) :
    ∀ l ∈ (processTx price pol st tx).ledger, 0 ≤ l.amount := by
  cases hdir : tx.direction with
  | incoming =>
    cases hexc : pol.acquisitionExcluded (effectiveCategory tx.category) with
    | true => simpa [processTx, hdir, hexc] using hpos
    | false =>
      by_cases hamt : tx.amount ≤ 0
      · simpa [processTx, hdir, hexc, hamt] using hpos
      · intro l hl
        simp only [processTx, hdir, hexc, if_neg hamt, Bool.false_eq_true,
          if_false, openLot, List.mem_append, List.mem_singleton] at hl
        rcases hl with h | h
        · exact hpos l h
        · rw [h]; simpa using le_of_lt (not_le.mp hamt)
  | outgoing =>
    cases hexc : pol.disposalExcluded (effectiveCategory tx.category) with
    | true => simpa [processTx, hdir, hexc] using hpos
    | false =>
      by_cases hamt : tx.amount ≤ 0
      · simpa [processTx, hdir, hexc, hamt] using hpos
      · intro l hl
        simp only [processTx, hdir, hexc, if_neg hamt, Bool.false_eq_true,
          if_false, consumeChecked_ledger] at hl
        exact consume_nonneg st.ledger tx.asset tx.amount hpos l hl

theorem processTx_conservation (price : String → ℤ → ℚ) (pol : TaxPolicy)
    (st : EngineState) (tx : Txn) (a : String) :
    assetBalance (processTx price pol st tx).ledger a
        + recordsSum (processTx price pol st tx).records a
      = assetBalance st.ledger a + recordsSum st.records a
        + (if tx.direction = Direction.incoming
              ∧ pol.acquisitionExcluded (effectiveCategory tx.category) = false
              ∧ 0 < tx.amount ∧ tx.asset = a
           then tx.amount else 0) := by
  cases hdir : tx.direction with
  | incoming =>
    cases hexc : pol.acquisitionExcluded (effectiveCategory tx.category) with
    | true => simp [processTx, hdir, hexc]
    | false =>
      by_cases hamt : tx.amount ≤ 0
      · simp [processTx, hdir, hexc, hamt, not_lt.mpr hamt]
      · have hpos : 0 < tx.amount := not_le.mp hamt
        by_cases ha : tx.asset = a
        · simp [processTx, hdir, hexc, hamt, openLot, assetBalance_append,
            assetBalance, ha, hpos]
          ring
        · simp [processTx, hdir, hexc, hamt, openLot, assetBalance_append,
            assetBalance, ha, hpos]
  | outgoing =>
    have hne : ¬(Direction.outgoing = Direction.incoming
        ∧ pol.acquisitionExcluded (effectiveCategory tx.category) = false
        ∧ 0 < tx.amount ∧ tx.asset = a) := by simp
    rw [if_neg hne]
    cases hexc : pol.disposalExcluded (effectiveCategory tx.category) with
    | true => simp [processTx, hdir, hexc]
    | false =>
      by_cases hamt : tx.amount ≤ 0
      · simp [processTx, hdir, hexc, hamt]
      · simp only [processTx, hdir, hexc, if_neg hamt, Bool.false_eq_true,
          if_false, consumeChecked_ledger, consumeChecked_pairs,
          recordsSum_append, recordsSum_map_mkRecord]
        by_cases ha : tx.asset = a
        · rw [if_pos ha, ← ha, consume_balance_eq]
          ring
        · rw [if_neg ha, consume_balance_ne st.ledger tx.asset a tx.amount
            fun h => ha h.symm]
          ring

theorem processTx_accounting (price : String → ℤ → ℚ) (pol : TaxPolicy)
    (st : EngineState) (tx : Txn) (a : String)
    (hpos : ∀ l ∈ st.ledger, 0 ≤ l.amount) :
    recordsSum (processTx price pol st tx).records a
        + shortfallSum (processTx price pol st tx).warnings a
      = recordsSum st.records a + shortfallSum st.warnings a
        + (if tx.direction = Direction.outgoing
              ∧ pol.disposalExcluded (effectiveCategory tx.category) = false
              ∧ 0 < tx.amount ∧ tx.asset = a
           then tx.amount else 0) := by
  cases hdir : tx.direction with
  | incoming =>
    simp only [processTx, hdir]
    rw [if_neg (by simp : ¬(Direction.incoming = Direction.outgoing
      ∧ pol.disposalExcluded (effectiveCategory tx.category) = false
      ∧ 0 < tx.amount ∧ tx.asset = a))]
    split
    · simp
    · split <;> simp [openLot]
  | outgoing =>
    cases hexc : pol.disposalExcluded (effectiveCategory tx.category) with
    | true => simp [processTx, hdir, hexc]
    | false =>
      by_cases hamt : tx.amount ≤ 0
      · simp [processTx, hdir, hexc, hamt, not_lt.mpr hamt]
      · have h0 : 0 < tx.amount := not_le.mp hamt
        simp only [processTx, hdir, hexc, if_neg hamt, Bool.false_eq_true,
          if_false, recordsSum_append, shortfallSum_append,
          consumeChecked_pairs, recordsSum_map_mkRecord]
        by_cases hbal : assetBalance st.ledger tx.asset < tx.amount
        · rw [consumeChecked_err_some st.ledger tx.asset tx.amount hbal]
          rw [consume_insufficient st.ledger tx.asset tx.amount
            (le_of_lt hbal) hpos]
          by_cases ha : tx.asset = a
          · simp [shortfallSum, ha, hdir, h0]
            ring
          · simp [shortfallSum, ha, hdir, h0]
        · rw [consumeChecked_err_none st.ledger tx.asset tx.amount
            (not_lt.mp hbal)]
          rw [consume_exact st.ledger tx.asset tx.amount (le_of_lt h0)
            (not_lt.mp hbal) hpos]
          by_cases ha : tx.asset = a
          · simp [shortfallSum, ha, hdir, h0]
            ring
          · simp [shortfallSum, ha, hdir, h0]

/-!
## Fold lemmas: invariants of the whole engine run
-/

theorem foldl_nonneg (price : String → ℤ → ℚ) (pol : TaxPolicy)
    (txs : List Txn) :
    ∀ st : EngineState, (∀ l ∈ st.ledger, 0 ≤ l.amount) →
      ∀ l ∈ (txs.foldl (processTx price pol) st).ledger, 0 ≤ l.amount := by
  induction txs with
  | nil => intro st h; simpa using h
  | cons tx rest ih =>
    intro st h
    simpa using ih (processTx price pol st tx)
      (processTx_nonneg price pol st tx h)

theorem foldl_conservation (price : String → ℤ → ℚ) (pol : TaxPolicy)
    (txs : List Txn) :
    ∀ (st : EngineState) (a : String),
      assetBalance (txs.foldl (processTx price pol) st).ledger a
          + recordsSum (txs.foldl (processTx price pol) st).records a
        = assetBalance st.ledger a + recordsSum st.records a
          + acquiredSum pol txs a := by
  induction txs with
  | nil => intro st a; simp [acquiredSum]
  | cons tx rest ih =>
    intro st a
    simp only [List.foldl_cons, acquiredSum]
    rw [ih (processTx price pol st tx) a]
    have h := processTx_conservation price pol st tx a
    linarith

theorem foldl_accounting (price : String → ℤ → ℚ) (pol : TaxPolicy)
    (txs : List Txn) :
    ∀ (st : EngineState) (a : String), (∀ l ∈ st.ledger, 0 ≤ l.amount) →
      recordsSum (txs.foldl (processTx price pol) st).records a
          + shortfallSum (txs.foldl (processTx price pol) st).warnings a
        = recordsSum st.records a + shortfallSum st.warnings a
          + disposedSum pol txs a := by
  induction txs with
  | nil => intro st a _; simp [disposedSum]
  | cons tx rest ih =>
    intro st a hpos
    simp only [List.foldl_cons, disposedSum]
    rw [ih (processTx price pol st tx) a
      (processTx_nonneg price pol st tx hpos)]
    have h := processTx_accounting price pol st tx a hpos
    linarith

theorem processTx_records_classify (price : String → ℤ → ℚ) (pol : TaxPolicy)
    (st : EngineState) (tx : Txn)
    (h : ∀ r ∈ st.records, r.holdingPeriod = classify r.buyDate r.sellDate) :
    ∀ r ∈ (processTx price pol st tx).records,
      r.holdingPeriod = classify r.buyDate r.sellDate := by
  cases hdir : tx.direction with
  | incoming =>
    simp only [processTx, hdir]
    split
    · exact h
    · split
      · exact h
      · exact h
  | outgoing =>
    simp only [processTx, hdir]
    split
    · exact h
    · split
      · exact h
      · intro r hr
        simp only [List.mem_append, List.mem_map] at hr
        rcases hr with hr | ⟨p, _, hp⟩
        · exact h r hr
        · rw [← hp]
          simp [mkRecord]

theorem foldl_records_classify (price : String → ℤ → ℚ) (pol : TaxPolicy)
    (txs : List Txn) :
    ∀ st : EngineState,
      (∀ r ∈ st.records, r.holdingPeriod = classify r.buyDate r.sellDate) →
      ∀ r ∈ (txs.foldl (processTx price pol) st).records,
        r.holdingPeriod = classify r.buyDate r.sellDate := by
  induction txs with
  | nil => intro st h; simpa using h
  | cons tx rest ih =>
    intro st h
    simpa using ih (processTx price pol st tx)
      (processTx_records_classify price pol st tx h)

/-!
## Helper lemma for the categorizer
-/

theorem categoriesOf_applyCategories (txs : List CatTx)
    (f : String → Option String)
    (hf : ∀ k c, categoriesOf txs k = some c → f k = some c) :
    ∀ k, categoriesOf (applyCategories f txs) k = categoriesOf txs k := by
  induction txs with
  | nil => intro k; simp [applyCategories, categoriesOf]
  | cons tx rest ih =>
    have hfrest : ∀ k c, categoriesOf rest k = some c → f k = some c := by
      intro k c hc
      apply hf k c
      simp only [categoriesOf, hc]
    have ih2 := ih hfrest
    intro k
    have happ : applyCategories f (tx :: rest)
        = (match tx.hash with
           | some h =>
             match f h with
             | some c => { tx with category := some c }
             | none => tx
           | none => tx) :: applyCategories f rest := by
      simp [applyCategories]
    rw [happ]
    cases hrest : categoriesOf rest k with
    | some c =>
      have hrest2 : categoriesOf (applyCategories f rest) k = some c := by
        rw [ih2, hrest]
      simp only [categoriesOf, hrest, hrest2]
    | none =>
      have hrest2 : categoriesOf (applyCategories f rest) k = none := by
        rw [ih2, hrest]
      simp only [categoriesOf, hrest, hrest2]
      cases hh : tx.hash with
      | none => simp [hh]
      | some h =>
        cases hfh : f h with
        | none => simp [hh, hfh]
        | some c =>
          simp only [hh, hfh]
          by_cases hk : h = k
          · subst hk
            have hcat : categoriesOf (tx :: rest) h = some (assignCategory tx) := by
              simp [categoriesOf, hrest, hh]
            have hfc := hf h (assignCategory tx) hcat
            rw [hfh] at hfc
            have hc : c = assignCategory tx := by
              injection hfc.symm with hv
              exact hv.symm
            subst hc
            simp [assignCategory]
          · simp [hk]

/-!
## Claim theorems
-/

/-- C1: the FIFO Matching Engine consumes lots strictly in order of
acquisition — the consumed lots are exactly an initial segment of the
asset's queue (head = oldest acquisition), every consumed lot except
possibly the last one is consumed fully (its remaining amount reaches
zero) before any amount is taken from the next, and when the queue is in
nondecreasing acquisition-date order (as `openLot` maintains under the
chronological input invariant) the consumed lots come in nondecreasing
acquisition-date order. -/
theorem fifo_consume_in_acquisition_order (L : List Lot) (a : String) (amt : ℚ) :
    (consume L a amt).1.map Prod.fst
        = (L.filter fun l => l.asset == a).take (consume L a amt).1.length
    ∧ fullyConsumedInit (consume L a amt).1
    ∧ ((L.filter fun l => l.asset == a).Pairwise
          (fun l1 l2 => l1.acquiredAt ≤ l2.acquiredAt) →
        ((consume L a amt).1.map Prod.fst).Pairwise
          fun l1 l2 => l1.acquiredAt ≤ l2.acquiredAt) :=
  ⟨consume_fst_take L a amt, fullyConsumedInit_consume L a amt,
    fun h => consume_pairs_sorted L a amt h⟩

/-- C1 witness: the FIFO order statement evaluated on the concrete ledger
`ledgerW` with a disposal of 1.5 ETH that spans both lots. -/
theorem fifo_consume_witness :
    (consume ledgerW "ETH" (3 / 2)).1.map Prod.fst
        = (ledgerW.filter fun l => l.asset == "ETH").take
            (consume ledgerW "ETH" (3 / 2)).1.length
    ∧ fullyConsumedInit (consume ledgerW "ETH" (3 / 2)).1
    ∧ ((consume ledgerW "ETH" (3 / 2)).1.map Prod.fst).Pairwise
        fun l1 l2 => l1.acquiredAt ≤ l2.acquiredAt := by
  obtain ⟨h1, h2, h3⟩ := fifo_consume_in_acquisition_order ledgerW "ETH" (3 / 2)
  exact ⟨h1, h2, h3 (by decide)⟩

/-- C2: an outgoing, taxable (not policy-excluded), positive disposal emits
exactly one RealizedGainRecord per consumed (lot, amountConsumed) pair, with
proceeds = amountConsumed × price-at-disposal-timestamp, cost basis =
amountConsumed × lot.unitCostUSD, and gain = proceeds − cost basis. -/
theorem disposal_emits_one_record_per_pair (price : String → ℤ → ℚ)
    (pol : TaxPolicy) (st : EngineState) (tx : Txn)
    (hdir : tx.direction = Direction.outgoing)
    (hexc : pol.disposalExcluded (effectiveCategory tx.category) = false)
    (hamt : 0 < tx.amount) :
    (processTx price pol st tx).records
      = st.records
        ++ (consumeChecked st.ledger tx.asset tx.amount).pairs.map fun p =>
          { asset := tx.asset
            amount := p.2
            buyDate := p.1.acquiredAt
            sellDate := tx.timestamp
            costBasis := p.2 * p.1.unitCostUSD
            proceeds := p.2 * price tx.asset tx.timestamp
            gainLoss := p.2 * price tx.asset tx.timestamp
              - p.2 * p.1.unitCostUSD
            holdingPeriod := classify p.1.acquiredAt tx.timestamp } := by
  simp only [processTx, hdir, hexc, Bool.false_eq_true, if_false,
    if_neg (not_le.mpr hamt)]
  rfl

/-- C2 witness: the per-pair record emission evaluated on the concrete
state `stW` and the 1.5 ETH disposal `txW2`. -/
theorem disposal_record_witness :
    (processTx priceW polW stW txW2).records
      = stW.records
        ++ (consumeChecked stW.ledger txW2.asset txW2.amount).pairs.map fun p =>
          { asset := txW2.asset
            amount := p.2
            buyDate := p.1.acquiredAt
            sellDate := txW2.timestamp
            costBasis := p.2 * p.1.unitCostUSD
            proceeds := p.2 * priceW txW2.asset txW2.timestamp
            gainLoss := p.2 * priceW txW2.asset txW2.timestamp
              - p.2 * p.1.unitCostUSD
            holdingPeriod := classify p.1.acquiredAt txW2.timestamp } :=
  disposal_emits_one_record_per_pair priceW polW stW txW2 rfl (by decide)
    (by norm_num [txW2])

/-- C3 counterexample: with the insufficiency stream `txsBad` (acquire 3
ETH, dispose 5 ETH) the remaining ledger balance is 0 while total acquired
minus total disposed is −2, so the balance does not equal acquired minus
disposed for every stream. -/
theorem conservation_requested_counterexample :
    ¬ (assetBalance (processTransactions priceW polW txsBad).ledger "ETH"
        = acquiredSum polW txsBad "ETH" - disposedSum polW txsBad "ETH") := by
  norm_num [processTransactions, processTx, consumeChecked, consume,
    assetBalance, acquiredSum, disposedSum, effectiveCategory, polW, txsBad,
    priceW, openLot, mkRecord, recordsSum, pairsSum]
  simp +decide
  norm_num

/-- C3 (amended): at every point of any stream (every prefix), the ledger
balance of each asset equals the total acquired minus the amount actually
consumed into realized-gain records, exactly; and whenever no
insufficient-lots warning has occurred, the consumed amount equals the
total disposed, so balance = acquired − disposed as originally stated. -/
theorem conservation_invariant (price : String → ℤ → ℚ) (pol : TaxPolicy)
    (txs : List Txn) (n : ℕ) (a : String) :
    assetBalance (processTransactions price pol (txs.take n)).ledger a
        = acquiredSum pol (txs.take n) a
          - recordsSum (processTransactions price pol (txs.take n)).records a
    ∧ ((processTransactions price pol (txs.take n)).warnings = [] →
        recordsSum (processTransactions price pol (txs.take n)).records a
          = disposedSum pol (txs.take n) a) := by
  constructor
  · have h := foldl_conservation price pol (txs.take n) ⟨[], [], []⟩ a
    simp only [processTransactions]
    simp only [assetBalance, recordsSum] at h
    linarith [h]
  · intro hw
    have h := foldl_accounting price pol (txs.take n) ⟨[], [], []⟩ a
      (by intro l hl; simp at hl)
    simp only [processTransactions] at hw ⊢
    rw [hw] at h
    simp only [assetBalance, recordsSum, shortfallSum] at h
    linarith [h]

/-- C3 witness: the conservation statement evaluated on the full §8
scenario stream, which completes without warnings. -/
theorem conservation_witness :
    assetBalance (processTransactions priceW polW (txsW.take 3)).ledger "ETH"
        = acquiredSum polW (txsW.take 3) "ETH"
          - recordsSum
              (processTransactions priceW polW (txsW.take 3)).records "ETH"
    ∧ recordsSum (processTransactions priceW polW (txsW.take 3)).records "ETH"
        = disposedSum polW (txsW.take 3) "ETH" := by
  obtain ⟨h1, h2⟩ := conservation_invariant priceW polW txsW 3 "ETH"
  refine ⟨h1, h2 ?_⟩
  norm_num [processTransactions, processTx, consumeChecked, consume,
    assetBalance, effectiveCategory, polW, txsW, priceW, openLot, mkRecord]

/-- C4: a record is classified "long-term" exactly when the holding period
(disposal timestamp − acquisition timestamp) is at least 365 days and
"short-term" otherwise; in particular 365 days held is long-term and 364
days is short-term, and every record the engine emits carries exactly this
classification of its own dates. -/
theorem classify_long_term_iff :
    (∀ acquiredAt disposedAt : ℤ,
        (classify acquiredAt disposedAt = Term.longTerm
          ↔ 365 ≤ disposedAt - acquiredAt)
        ∧ (classify acquiredAt disposedAt = Term.shortTerm
          ↔ disposedAt - acquiredAt < 365))
    ∧ classify 0 365 = Term.longTerm
    ∧ classify 0 364 = Term.shortTerm
    ∧ ∀ (price : String → ℤ → ℚ) (pol : TaxPolicy) (txs : List Txn),
        ((processTransactions price pol txs).records.all
          fun r => r.holdingPeriod == classify r.buyDate r.sellDate) = true := by
  refine ⟨fun acq disp => ?_, by decide, by decide, ?_⟩
  · by_cases h : 365 ≤ disp - acq
    · refine ⟨by simp [classify, h], ?_⟩
      simp [classify, h]
    · refine ⟨by simp [classify, h], ?_⟩
      simp [classify, h]
      omega
  · intro price pol txs
    rw [List.all_eq_true]
    intro r hr
    have hmem : r ∈ (txs.foldl (processTx price pol) ⟨[], [], []⟩).records := by
      simpa [processTransactions] using hr
    have h := foldl_records_classify price pol txs ⟨[], [], []⟩
      (by intro x hx; simp at hx) r hmem
    simp [h]

/-- C5: a disposal exceeding the asset's remaining lots yields an
`InsufficientLotsError` carrying the uncovered excess (never a silent
clamp, and never a spurious error when lots suffice), while the matched
portion still produces its records; the engine appends the error to the
warning list and the run continues over the remaining transactions. -/
theorem insufficient_lots_error_surfaced :
    (∀ (L : List Lot) (a : String) (amt : ℚ),
        (∀ l ∈ L, 0 ≤ l.amount) → assetBalance L a < amt →
        (consumeChecked L a amt).err = some ⟨a, amt - assetBalance L a⟩
        ∧ pairsSum (consumeChecked L a amt).pairs = assetBalance L a)
    ∧ (∀ (L : List Lot) (a : String) (amt : ℚ),
        amt ≤ assetBalance L a → (consumeChecked L a amt).err = none)
    ∧ (∀ (price : String → ℤ → ℚ) (pol : TaxPolicy) (st : EngineState)
        (tx : Txn),
        tx.direction = Direction.outgoing →
        pol.disposalExcluded (effectiveCategory tx.category) = false →
        0 < tx.amount →
        assetBalance st.ledger tx.asset < tx.amount →
        (∀ l ∈ st.ledger, 0 ≤ l.amount) →
        (processTx price pol st tx).warnings
          = st.warnings
            ++ [⟨tx.asset, tx.amount - assetBalance st.ledger tx.asset⟩]
        ∧ (processTx price pol st tx).records.length
          = st.records.length
            + (consumeChecked st.ledger tx.asset tx.amount).pairs.length)
    ∧ ∀ (price : String → ℤ → ℚ) (pol : TaxPolicy) (txs rest : List Txn),
        processTransactions price pol (txs ++ rest)
          = rest.foldl (processTx price pol)
              (processTransactions price pol txs) := by
  refine ⟨?_, ?_, ?_, ?_⟩
  · intro L a amt hpos hlt
    refine ⟨consumeChecked_err_some L a amt hlt, ?_⟩
    rw [consumeChecked_pairs]
    exact consume_insufficient L a amt (le_of_lt hlt) hpos
  · intro L a amt hle
    exact consumeChecked_err_none L a amt hle
  · intro price pol st tx hdir hexc hamt hlt _
    constructor
    · simp only [processTx, hdir, hexc, Bool.false_eq_true, if_false,
        if_neg (not_le.mpr hamt)]
      rw [consumeChecked_err_some st.ledger tx.asset tx.amount hlt]
      rfl
    · simp only [processTx, hdir, hexc, Bool.false_eq_true, if_false,
        if_neg (not_le.mpr hamt)]
      simp [List.length_append]
  · intro price pol txs rest
    simp [processTransactions, List.foldl_append]

/-- C5 witness: the §8 insufficiency scenario — 3 ETH of lots, a 5 ETH
disposal — reports the 2 ETH excess as an error, matches the available 3
ETH, and extends the warning list without dropping the matched records. -/
theorem insufficient_lots_witness :
    (consumeChecked ledgerW "ETH" 5).err
        = some ⟨"ETH", 5 - assetBalance ledgerW "ETH"⟩
    ∧ pairsSum (consumeChecked ledgerW "ETH" 5).pairs
        = assetBalance ledgerW "ETH"
    ∧ (processTx priceW polW stW txW).warnings
        = stW.warnings
          ++ [⟨txW.asset, txW.amount - assetBalance stW.ledger txW.asset⟩]
    ∧ (processTx priceW polW stW txW).records.length
        = stW.records.length
          + (consumeChecked stW.ledger txW.asset txW.amount).pairs.length := by
  obtain ⟨h1, _, h3, _⟩ := insufficient_lots_error_surfaced
  have hnn : ∀ l ∈ ledgerW, 0 ≤ l.amount := by
    intro l hl
    simp only [ledgerW, List.mem_cons, List.not_mem_nil, or_false] at hl
    rcases hl with h | h <;> rw [h] <;> norm_num
  have hbal : assetBalance ledgerW "ETH" < 5 := by
    norm_num [assetBalance, ledgerW]
  have ha := h1 ledgerW "ETH" 5 hnn hbal
  have hb := h3 priceW polW stW txW rfl (by decide) (by norm_num [txW])
    (by norm_num [assetBalance, ledgerW, stW, txW]) (by exact hnn)
  exact ⟨ha.1, ha.2, hb.1, hb.2⟩

/-- C6: exporting Form 8949 with filter "all" yields one row per record, so
its row count equals the short-term row count plus the long-term row count,
and every filter yields exactly one row per matching record. -/
theorem form8949_row_counts (records : List RealizedGainRecord) :
    (exportForm8949 records TermFilter.all).length
        = (exportForm8949 records TermFilter.onlyShortTerm).length
          + (exportForm8949 records TermFilter.onlyLongTerm).length
    ∧ ∀ f, (exportForm8949 records f).length
        = (records.filter (matchesFilter f)).length := by
  constructor
  · simp only [exportForm8949, List.length_map]
    induction records with
    | nil => rfl
    | cons r rest ih =>
      cases h : r.holdingPeriod <;>
        simp [List.filter_cons, matchesFilter, h] <;> omega
  · intro f
    simp [exportForm8949]

/-- C7: auto-categorization is idempotent — the category map is a pure
function of the transaction list, and re-running it after the first run's
assignments have been saved onto the (otherwise unmodified) transactions
assigns every transaction exactly the same category as the first run. -/
theorem autoCategorize_idempotent (txs : List CatTx) (k : String) :
    categoriesOf (applyCategories (categoriesOf txs) txs) k
      = categoriesOf txs k :=
  categoriesOf_applyCategories txs (categoriesOf txs) (fun _ _ h => h) k

/-- C8: a transaction with no assigned category defaults by direction —
both "sent" and "received" default to "trade", and any other direction
falls back to "other", which is not "trade". -/
theorem default_category_by_direction (tx : CatTx) (h : tx.category = none) :
    (tx.txType = "sent" → assignCategory tx = "trade")
    ∧ (tx.txType = "received" → assignCategory tx = "trade")
    ∧ (tx.txType ≠ "sent" → tx.txType ≠ "received" →
        assignCategory tx = "other" ∧ ("other" : String) ≠ "trade") := by
  refine ⟨?_, ?_, ?_⟩
  · intro hs
    simp [assignCategory, h, autoDetectCategory, hs]
  · intro hs
    simp [assignCategory, h, autoDetectCategory, hs]
  · intro h1 h2
    exact ⟨by simp [assignCategory, h, autoDetectCategory, h1, h2], by decide⟩

/-- C8 witness: the direction default evaluated on concrete uncategorized
transactions of each direction. -/
theorem default_category_witness :
    assignCategory ⟨some "h1", "sent", none⟩ = "trade"
    ∧ assignCategory ⟨some "h1", "received", none⟩ = "trade"
    ∧ assignCategory ⟨some "h1", "approval", none⟩ = "other"
    ∧ ("other" : String) ≠ "trade" := by
  have h3 := (default_category_by_direction ⟨some "h1", "approval", none⟩
    rfl).2.2 (by decide) (by decide)
  exact ⟨(default_category_by_direction ⟨some "h1", "sent", none⟩ rfl).1 rfl,
    (default_category_by_direction ⟨some "h1", "received", none⟩ rfl).2.1 rfl,
    h3.1, h3.2⟩

/-- C9: the TaxDashboard renders nothing when the tax data object or its
summary field is absent — the result is `none` whatever the other fields
(realized gains, remaining lots) hold, so they are never dereferenced. -/
theorem taxDashboard_null_without_summary (formatUSD : ℚ → String) :
    renderTaxDashboard formatUSD none = none
    ∧ ∀ td : TaxData, td.summary = none →
        renderTaxDashboard formatUSD (some td) = none := by
  constructor
  · rfl
  · intro td h
    simp [renderTaxDashboard, h]

/-- C9 witness: the dashboard evaluated at absent tax data and at concrete
tax data without a summary. -/
theorem taxDashboard_null_witness :
    renderTaxDashboard fmtW none = none
    ∧ renderTaxDashboard fmtW (some tdNoSummary) = none :=
  ⟨(taxDashboard_null_without_summary fmtW).1,
    (taxDashboard_null_without_summary fmtW).2 tdNoSummary rfl⟩

/-- C10: formatGainLoss treats zero as a gain — the gain style with a "+"
prefix appears exactly for values ≥ 0 (including 0), and the loss style
with a "-" prefix exactly for strictly negative values. -/
theorem formatGainLoss_zero_is_gain (formatUSD : ℚ → String) (v : ℚ) :
    ((formatGainLoss formatUSD v).style = GainStyle.gain ↔ 0 ≤ v)
    ∧ ((formatGainLoss formatUSD v).style = GainStyle.loss ↔ v < 0)
    ∧ (0 ≤ v → (formatGainLoss formatUSD v).text = "+" ++ formatUSD |v|)
    ∧ (v < 0 → (formatGainLoss formatUSD v).text = "-" ++ formatUSD |v|) := by
  by_cases h : 0 ≤ v
  · have hnl : ¬ v < 0 := not_lt.mpr h
    refine ⟨?_, ?_, ?_, ?_⟩
    · simp [formatGainLoss, h]
    · simp [formatGainLoss, h, hnl]
    · intro _
      simp [formatGainLoss, h]
    · intro hv
      exact absurd hv hnl
  · have hv : v < 0 := not_le.mp h
    refine ⟨?_, ?_, ?_, ?_⟩
    · simp [formatGainLoss, h]
    · simp [formatGainLoss, h, hv]
    · intro hc
      exact absurd hc h
    · intro _
      simp [formatGainLoss, h]

/-- C10 witness: zero renders as a gain with the "+" prefix, a negative
value as a loss. -/
theorem formatGainLoss_witness :
    (formatGainLoss fmtW 0).style = GainStyle.gain
    ∧ (formatGainLoss fmtW 0).text = "+" ++ fmtW |(0 : ℚ)|
    ∧ (formatGainLoss fmtW (-1)).style = GainStyle.loss := by
  refine ⟨?_, ?_, ?_⟩
  · exact (formatGainLoss_zero_is_gain fmtW 0).1.mpr (by norm_num)
  · exact (formatGainLoss_zero_is_gain fmtW 0).2.2.1 (by norm_num)
  · exact (formatGainLoss_zero_is_gain fmtW (-1)).2.1.mpr (by norm_num)

end ShoeString
